import Mathlib

/-!
Verification of the `gopatterns` concurrency-pattern library.

The source is a small Go library of channel combinators: `Confine`, `Repeat`,
`Take`, `FanIn`, `OrDone`, `Tee`, `Bridge` and `Or`.  We give a shallow
embedding of each combinator's observable behaviour.  A finite stream that is
eventually closed is modelled as the `List` of values it delivers before the
close.  A never-triggered cancellation signal means the `<-ctx.Done()` branch
of every `select` is never taken; where a `select` still has a genuine race
(several live candidates) the choice is modelled as an explicit nondeterminism
parameter (a schedule / choice function) and the theorems quantify over it.
-/

set_option autoImplicit false

namespace Gopatterns

variable {T : Type}

/-- Model of `OrDone` under a never-triggered cancellation signal.
The goroutine loops: it receives `v, ok := <-c`; when `ok` is false (the input
list is exhausted, i.e. the channel closed) it returns and the output closes;
otherwise the inner `select` forwards `v` (its `<-ctx.Done()` branch is never
taken).  Hence the output delivers exactly the input values in order. -/
def OrDone : List T → List T
  | [] => []
  | v :: rest => v :: OrDone rest

/-- Model of `Bridge` under a never-triggered cancellation signal.  The outer
loop receives the next inner stream from `streams` (returning, and closing the
output, once the outer channel closes) and then ranges over `OrDone ctx stream`,
forwarding every value (the `<-ctx.Done()` branch of the forwarding `select`
is never taken). -/
def Bridge : List (List T) → List T
  | [] => []
  | s :: rest => OrDone s ++ Bridge rest

/-- Model of `Confine`.  The single spawned goroutine executes the supplied
functions one after another with a sequential `for` loop, sending each result
into the buffered `results` channel (capacity `len(fns)`, so no send blocks),
and closes the channel after the loop.  The output stream is therefore the
sequential map of the functions; sequential execution in one task is embedded
as the sequentiality of `List.map`. -/
def Confine (fns : List (Unit → T)) : List T :=
  fns.map (fun f => f ())

/-- Model of `Take` under a never-triggered cancellation signal, applied to an
input stream that delivers the values `input` and then closes.  The goroutine
runs `for i := 0; i < num; i++ { select { <-ctx.Done() | taken <- <-stream } }`.
The receive `<-stream` of the send case is evaluated on entering the `select`;
with the signal never triggered every iteration forwards that receive's result.
The `i`-th receive yields `input[i]` while `i < input.length`, and after the
input channel has closed a receive returns immediately with the element type's
zero value, here the explicit parameter `zero`.  After `num` iterations the
deferred close runs. -/
def Take (input : List T) (zero : T) (num : Nat) : List T :=
  (List.range num).map (fun i => input.getD i zero)

/-- One observable action of the goroutine spawned by `Repeat`. -/
inductive RStep (T : Type) where
  | emitted (v : T) (next : List T)
  | restarted (next : List T)
  | halted
deriving DecidableEq

/-- Small-step model of the goroutine body of `Repeat`: state is the suffix of
`values` still to be handled by the current pass of the inner `for _, v :=
range values` loop.  When the pass is over, the infinite outer `for` loop
restarts it — without executing any `select`, hence without any cancellation
check.  Otherwise a `select` runs on the head value: if the signal has been
triggered we model the `<-ctx.Done()` branch being taken (the goroutine
returns and the stream closes); otherwise `stream <- v` emits the value. -/
def repeatStep (values : List T) (cancelled : Bool) : List T → RStep T
  | [] => .restarted values
  | v :: rest => if cancelled then .halted else .emitted v rest

/-- Runs `n` steps of the `Repeat` goroutine from state `cur`; returns the
resulting state, or `none` if the goroutine returned (closing its stream). -/
def repeatIter (values : List T) (cancelled : Bool) : Nat → List T → Option (List T)
  | 0, cur => some cur
  | n + 1, cur =>
    match repeatStep values cancelled cur with
    | .halted => none
    | .emitted _ next => repeatIter values cancelled n next
    | .restarted next => repeatIter values cancelled n next

/-- The next value emitted by `Repeat`'s goroutine from inner-loop state `cur`,
under a never-triggered signal, together with the successor state.  A finished
pass (`cur = []`) is restarted by the outer loop and, when `values` is
nonempty, the restarted pass immediately emits the head of `values`; when
`values` is empty the outer loop spins forever without ever emitting, so there
is no next emission. -/
def repeatNext (values : List T) : List T → Option (T × List T)
  | [] =>
    match values with
    | [] => none
    | v :: rest => some (v, rest)
  | v :: rest => some (v, rest)

/-- First `n` values emitted by `Repeat`'s goroutine from state `cur` under a
never-triggered signal. -/
def repeatEmits (values : List T) : Nat → List T → List T
  | 0, _ => []
  | n + 1, cur =>
    match repeatNext values cur with
    | none => []
    | some (v, next) => v :: repeatEmits values n next

/-- Model of the pipeline `Take(ctx, Repeat(ctx, values...), num)` under a
never-triggered signal.  `Repeat`'s channel is unbuffered, so the `i`-th
receive performed by `Take`'s loop is exactly the `i`-th emission of the
`Repeat` goroutine; `Take` forwards its `num` receives and then its deferred
close closes the output. -/
def TakeRepeat (values : List T) (num : Nat) : List T :=
  repeatEmits values num values

/-- Which of `Tee`'s two output channels a delivery went to. -/
inductive Side where
  | l
  | r
deriving DecidableEq

/-- One iteration of `Tee`'s inner two-round loop for a single value, under a
never-triggered signal.  Round one is a `select` between `out1 <- val` and
`out2 <- val` (the `<-ctx.Done()` branch is never taken); `leftFirst` records
which send the race resolved to.  The chosen variable is then set to `nil`, a
send on `nil` blocks forever, so round two necessarily delivers the value to
the other output.  Either way each output receives the value exactly once. -/
def teeDeliver (v : T) (leftFirst : Bool) : List (Side × T) :=
  if leftFirst then [(Side.l, v), (Side.r, v)] else [(Side.r, v), (Side.l, v)]

/-- Delivery trace of `Tee`'s goroutine over the values of its input, with the
per-value race of the inner loop decided by `choice`. -/
def teeTrace : List T → (Nat → Bool) → List (Side × T)
  | [], _ => []
  | v :: rest, choice =>
    teeDeliver v (choice 0) ++ teeTrace rest (fun n => choice (n + 1))

/-- The values delivered to one side, in delivery order. -/
def sideOut (s : Side) (tr : List (Side × T)) : List T :=
  tr.filterMap (fun p => if p.1 = s then some p.2 else none)

/-- Model of `Tee` under a never-triggered cancellation signal: the goroutine
ranges over `OrDone ctx in` and runs the two-round delivery loop for each
value; both outputs close (deferred) when the input is exhausted.  `choice`
resolves the per-value race between the two first-round sends. -/
def Tee (input : List T) (choice : Nat → Bool) : List T × List T :=
  (sideOut Side.l (teeTrace (OrDone input) choice),
   sideOut Side.r (teeTrace (OrDone input) choice))

/-- One delivery step of `FanIn`: the drain goroutine of input `i` is the one
whose pending send `multiplexed <- val` is accepted next; it must still have a
pending value.  Returns the delivered value and the remaining state. -/
def fanInStep : List (List T) → Nat → Option (T × List (List T))
  | [], _ => none
  | [] :: _, 0 => none
  | (v :: rest) :: tail, 0 => some (v, rest :: tail)
  | l :: tail, i + 1 =>
    match fanInStep tail i with
    | none => none
    | some (v, st) => some (v, l :: st)

/-- Complete run of `FanIn` under a never-triggered signal: `sched` names, for
each delivery on the multiplexed output, which input's drain goroutine won the
race to send.  The run is only complete (`some`) when every input has been
fully drained: each drain goroutine forwards its whole source (no `select`
ever takes the `<-ctx.Done()` branch) and then calls `wg.Done()`; only after
all of them have exited does the closer goroutine close the output. -/
def fanInRun : List (List T) → List Nat → Option (List T)
  | state, [] => if state.all List.isEmpty then some [] else none
  | state, i :: sched =>
    match fanInStep state i with
    | none => none
    | some (v, st) => (fanInRun st sched).map (fun out => v :: out)

/-- The multiset union of the values of a list of streams. -/
def sumM : List (List T) → Multiset T
  | [] => 0
  | l :: rest => (l : Multiset T) + sumM rest

/-- A channel appearing in the recursive structure of `Or`: either one of the
original input channels (by position) or the `orDone` output channel of one of
the goroutines `Or` spawns (by spawn order). -/
inductive Chan where
  | orig (i : Nat)
  | gate (k : Nat)
deriving DecidableEq

/-- The goroutines spawned by `Or chans` together with the channels each one's
four-way (or two-way) `select` watches, numbering goroutines by spawn order
starting at `k`.  Mirrors the source: zero or one channel spawns nothing; two
channels spawn one goroutine selecting on both; three or more spawn a
goroutine selecting on the first three and on the channel returned by the
recursive call `Or(append(channels[3:], orDone)...)` — which is `orDone`
itself when `channels[3:]` is empty (the single-channel case of the recursive
call returns its argument unchanged), and otherwise the `orDone` of the next
spawned goroutine. -/
def buildGates : List Chan → Nat → List (Nat × List Chan)
  | [], _ => []
  | [_], _ => []
  | [c0, c1], k => [(k, [c0, c1])]
  | c0 :: c1 :: c2 :: rest, k =>
    (k, [c0, c1, c2, if rest.isEmpty then Chan.gate k else Chan.gate (k + 1)]) ::
      buildGates (rest ++ [Chan.gate k]) (k + 1)
termination_by chans _ => chans.length
decreasing_by simp [List.length_append]

/-- The goroutine structure of `Or` applied to `n` original channels. -/
def orGates (n : Nat) : List (Nat × List Chan) :=
  buildGates ((List.range n).map Chan.orig) 0

/-- Resolution of a channel of the `Or` structure, as a least fixpoint.
`R i` states that original input `i` has resolved (closed or delivered a
value).  A goroutine's `orDone` resolves — it closes, via the deferred
`close(orDone)`, and a close is the only event it can ever carry since nothing
sends on it — exactly when its `select` fires, i.e. when some channel it
watches has resolved.  The inductive reading makes resolution causally
grounded in the original inputs: an `orDone` cannot close "spontaneously"
through the cyclic self-reference `append(channels[3:], orDone)`. -/
inductive Resolves (R : Nat → Prop) (gates : List (Nat × List Chan)) : Chan → Prop where
  | orig (i : Nat) : R i → Resolves R gates (Chan.orig i)
  | gate (k : Nat) (ws : List Chan) (c : Chan) :
      (k, ws) ∈ gates → c ∈ ws → Resolves R gates c → Resolves R gates (Chan.gate k)

/-- Observable status of one original input channel of `Or` at the moment of
observation: whether it has delivered a value, and whether it has closed. -/
structure ChanStatus where
  delivered : Prop
  closed : Prop

/-- Input `i` has resolved: it exists and has delivered a value or closed. -/
def inputResolves (sts : List ChanStatus) (i : Nat) : Prop :=
  ∃ s, sts.get? i = some s ∧ (s.delivered ∨ s.closed)

/-- Whether the channel returned by `Or` has closed, given the statuses of the
original inputs.  Zero inputs: the source returns `nil`, and a `nil` channel
never closes.  One input: the source returns that channel unchanged, so the
returned channel closes exactly when that input closes (a mere delivered value
does not close it).  Two or more: the returned channel is the `orDone` of the
first spawned goroutine, gate `0`. -/
def orDerivedClosed (sts : List ChanStatus) : Prop :=
  match sts with
  | [] => False
  | [s] => s.closed
  | _ => Resolves (inputResolves sts) (orGates sts.length) (Chan.gate 0)

/-- The channel returned by `Or`, mirroring the source's `switch len(channels)`:
`nil` for zero inputs, the single input unchanged for one input, and the
`orDone` of the first spawned goroutine otherwise. -/
def orReturn (chans : List Chan) : Option Chan :=
  match chans with
  | [] => none
  | [c] => some c
  | _ => some (Chan.gate 0)

/-! ## Theorems -/

theorem OrDone_id (l : List T) : OrDone l = l := by
  induction l with
  | nil => rfl
  | cons v rest ih => simp [OrDone, ih]

theorem range_map_const (n : Nat) (z : T) :
    (List.range n).map (fun _ => z) = List.replicate n z := by
  induction n with
  | zero => rfl
  | succ m ih =>
    simp [List.range_succ_eq_map, List.map_map, Function.comp_def, ih, List.replicate_succ]

/-- C1 counterexample: the claim says `Take` forwards exactly `min N L` values
and then closes, so its output stream should carry `min N L` values.  With the
empty input stream (`L = 0`, already closed) and bound `N = 1`, the single
iteration's receive from the closed channel returns the zero value, which is
forwarded: the output carries `1` value, not `min 1 0 = 0`. -/
theorem take_min_counterexample :
    ¬ (Take ([] : List Nat) 0 1).length = min 1 ([] : List Nat).length := by
  decide

/-- C1 amended: `Take` with bound `num` over an input that delivers `input`
and then closes outputs exactly `num` values and then closes: the first
`min num input.length` are the input's values in order, and once the input has
closed the remaining receives each yield the element type's zero value, which
is forwarded as padding. -/
theorem take_padded (input : List T) (zero : T) (num : Nat) :
    Take input zero num = input.take num ++ List.replicate (num - input.length) zero := by
  induction input generalizing num with
  | nil =>
    simp [Take]
  | cons a rest ih =>
    cases num with
    | zero => simp [Take]
    | succ m =>
      simp [Take, List.range_succ_eq_map, List.map_map, Function.comp_def] at *
      exact ih m

theorem confine_getD (fns : List (Unit → T)) (d : T) (i : Nat) :
    (Confine fns).getD i d = (fns.getD i (fun _ => d)) () := by
  induction fns generalizing i with
  | nil => simp [Confine]
  | cons f rest ih =>
    cases i with
    | zero => simp [Confine]
    | succ j => simpa [Confine] using ih j

/-- C9: `Confine` executes the supplied functions strictly one after another in
its single spawned task — embedded as the sequential `List.map` of that task's
loop — and delivers the results on the output stream in exactly the order the
functions were supplied, closing the output after the last one: the output has
one entry per function and its `i`-th entry is the `i`-th function's result.
In particular, over the three add-functions of the example returning `5`, `9`
and `13` it yields exactly `[5, 9, 13]`. -/
theorem confine_sequential_order (fns : List (Unit → T)) (d : T) (i : Nat) :
    (Confine fns).length = fns.length ∧
    (Confine fns).getD i d = (fns.getD i (fun _ => d)) () ∧
    Confine [fun _ => 2 + 3, fun _ => 4 + 5, fun _ => 6 + 7] = [5, 9, 13] :=
  ⟨by simp [Confine], confine_getD fns d i, by decide⟩

/-- C6: `Repeat` with an empty seed sequence loops forever producing no value
and never closing its output: after any number `n` of steps the goroutine is
still running (`some`) and still in the empty inner-loop state, and the single
possible step is the outer loop restarting the empty pass — not an emission
and not a halt.  Since that restart executes no `select`, the cancellation
check is never reached, so the behaviour is the same even when the
cancellation signal has been triggered (`cancelled = true`). -/
theorem repeat_empty_diverges (cancelled : Bool) (n : Nat) :
    repeatIter ([] : List T) cancelled n [] = some [] ∧
    repeatStep ([] : List T) cancelled [] = RStep.restarted [] := by
  refine ⟨?_, rfl⟩
  induction n with
  | zero => rfl
  | succ m ih => simpa [repeatIter, repeatStep] using ih

/-- C8: `Take` applied to `Repeat(ctx, 1, 2, 3)` with bound `7`, under a
never-triggered cancellation signal, delivers exactly `1,2,3,1,2,3,1` on its
output and then closes it. -/
theorem take_repeat_concrete :
    TakeRepeat [1, 2, 3] 7 = [1, 2, 3, 1, 2, 3, 1] := by
  decide

/-- C5: under a never-triggered cancellation signal `Bridge` delivers every
value of the first inner stream in order, then every value of the second, and
so on (its output is the order-preserving flattening of the stream of
streams), closing the output once the outer stream is exhausted; in
particular, over `10` single-element inner streams carrying `0` through `9` in
order it yields exactly `0,1,2,...,9`. -/
theorem bridge_flattens (streams : List (List T)) :
    Bridge streams = streams.flatten ∧
    Bridge ((List.range 10).map (fun i => [i])) = [0, 1, 2, 3, 4, 5, 6, 7, 8, 9] := by
  constructor
  · induction streams with
    | nil => rfl
    | cons s rest ih => simp [Bridge, OrDone_id, ih]
  · decide

theorem tee_sides (l : List T) (ch : Nat → Bool) :
    sideOut Side.l (teeTrace l ch) = l ∧ sideOut Side.r (teeTrace l ch) = l := by
  induction l generalizing ch with
  | nil => simp [teeTrace, sideOut]
  | cons v rest ih =>
    cases hc : ch 0 <;>
        simp [teeTrace, teeDeliver, sideOut, hc] <;>
      exact ih (fun n => ch (n + 1))

/-- C3: with a never-triggered cancellation signal, every value delivered on
`Tee`'s input appears on each of its two output streams exactly once, in the
original input order — each output stream is exactly the input list —
whichever way the per-value race between the two first-round sends resolves. -/
theorem tee_outputs_equal_input (input : List T) (choice : Nat → Bool) :
    (Tee input choice).1 = input ∧ (Tee input choice).2 = input := by
  have h := tee_sides (OrDone input) choice
  simpa [Tee, OrDone_id] using h

theorem sumM_cons (l : List T) (state : List (List T)) :
    sumM (l :: state) = (l : Multiset T) + sumM state := rfl

theorem sumM_of_isEmpty (state : List (List T)) (h : ∀ l ∈ state, l = []) :
    sumM state = 0 := by
  induction state with
  | nil => rfl
  | cons l tail ih =>
    have hl := h l (by simp)
    subst hl
    rw [sumM_cons, ih (fun x hx => h x (by simp [hx]))]
    rfl

theorem fanInStep_sumM (state : List (List T)) (i : Nat) (v : T) (st : List (List T))
    (h : fanInStep state i = some (v, st)) :
    v ::ₘ sumM st = sumM state := by
  induction state generalizing i st with
  | nil => simp [fanInStep] at h
  | cons l tail ih =>
    cases i with
    | zero =>
      cases l with
      | nil => simp [fanInStep] at h
      | cons a as =>
        simp [fanInStep] at h
        obtain ⟨rfl, rfl⟩ := h
        rw [sumM_cons, sumM_cons, ← Multiset.cons_coe, Multiset.cons_add]
    | succ j =>
      rcases hs : fanInStep tail j with - | ⟨w, st2⟩
      · simp [fanInStep, hs] at h
      · simp [fanInStep, hs] at h
        obtain ⟨rfl, rfl⟩ := h
        have hm := ih j st2 hs
        rw [sumM_cons, sumM_cons, ← hm]
        simp only [← Multiset.singleton_add]
        abel

/-- C4: with a never-triggered cancellation signal, every complete run of
`FanIn` — every way the races between the per-input drain goroutines can be
scheduled until all inputs are drained and the output is closed — delivers on
the multiplexed output a list whose multiset is exactly the multiset union of
the input streams' values: no value is lost and no value is duplicated. -/
theorem fanIn_multiset_union (inputs : List (List T)) (sched : List Nat) (out : List T)
    (h : fanInRun inputs sched = some out) :
    (out : Multiset T) = sumM inputs := by
  induction sched generalizing inputs out with
  | nil =>
    by_cases hall : inputs.all List.isEmpty = true
    · simp [fanInRun, hall] at h
      subst h
      rw [sumM_of_isEmpty inputs (by simpa [List.all_eq_true, List.isEmpty_iff] using hall)]
      rfl
    · simp [fanInRun, hall] at h
  | cons i sched ih =>
    rcases hs : fanInStep inputs i with - | ⟨v, st⟩
    · simp [fanInRun, hs] at h
    · simp [fanInRun, hs] at h
      rcases h with ⟨out2, h2, rfl⟩
      rw [← fanInStep_sumM inputs i v st hs, ← ih st out2 h2]
      simp [Multiset.cons_coe]

/-- Witness for C4 at a concrete complete run: inputs `[1,2]` and `[3]`,
schedule drain `0`, drain `1`, drain `0`, output `[1,3,2]`. -/
theorem fanIn_multiset_union_witness :
    fanInRun [[1, 2], [3]] [0, 1, 0] = some [1, 3, 2] ∧
    (([1, 3, 2] : List Nat) : Multiset Nat) = sumM [[1, 2], [3]] :=
  ⟨by decide, fanIn_multiset_union [[1, 2], [3]] [0, 1, 0] [1, 3, 2] (by decide)⟩

/-- C7: `Or` applied to zero input channels returns the nil (absent) channel
and spawns no goroutine, and `Or` applied to exactly one input channel returns
that same channel unchanged and spawns no racing goroutine. -/
theorem or_edge_cases (c : Chan) :
    orReturn [] = none ∧ orReturn [c] = some c ∧
    buildGates [] 0 = [] ∧ buildGates [c] 0 = [] := by
  refine ⟨rfl, rfl, ?_, ?_⟩ <;> simp [buildGates]

theorem buildGates_length (chans : List Chan) (k : Nat) :
    (buildGates chans k).length ≤ chans.length / 2 := by
  induction chans, k using buildGates.induct with
  | case1 k => simp [buildGates]
  | case2 c k => simp [buildGates]
  | case3 c0 c1 k => simp [buildGates]
  | case4 c0 c1 c2 rest k ih =>
    rw [buildGates]
    simp only [List.length_cons]
    simp [List.length_append] at ih
    omega

/-- C10: the recursive call in the default branch of `Or` receives exactly
`len(channels) - 2` channels — the tail `channels[3:]` plus the newly created
output channel — strictly fewer than the current call's, so the recursion
bottoms out: in total it spawns only finitely many goroutines, at most
`len(channels) / 2` of them. -/
theorem or_recursion_terminates (c0 c1 c2 : Chan) (rest : List Chan) (k : Nat)
    (chans : List Chan) (j : Nat) :
    ((c0 :: c1 :: c2 :: rest).drop 3 ++ [Chan.gate k]).length
        = (c0 :: c1 :: c2 :: rest).length - 2 ∧
    ((c0 :: c1 :: c2 :: rest).drop 3 ++ [Chan.gate k]).length
        < (c0 :: c1 :: c2 :: rest).length ∧
    (buildGates chans j).length ≤ chans.length / 2 := by
  refine ⟨?_, ?_, buildGates_length chans j⟩ <;> simp

theorem resolves_ground (R : Nat → Prop) (gates : List (Nat × List Chan)) (c : Chan)
    (h : Resolves R gates c) :
    ∃ i, R i ∧ (c = Chan.orig i ∨ ∃ p ∈ gates, Chan.orig i ∈ p.2) := by
  induction h with
  | orig i hi => exact ⟨i, hi, Or.inl rfl⟩
  | gate k ws d hg hd hr ih =>
    obtain ⟨i, hi, hcase⟩ := ih
    rcases hcase with rfl | ⟨p, hp, hmem⟩
    · exact ⟨i, hi, Or.inr ⟨(k, ws), hg, hd⟩⟩
    · exact ⟨i, hi, Or.inr ⟨p, hp, hmem⟩⟩

theorem buildGates_resolves (R : Nat → Prop) (gates : List (Nat × List Chan))
    (chans : List Chan) (k : Nat) :
    2 ≤ chans.length →
    (∀ p ∈ buildGates chans k, p ∈ gates) →
    ∀ c ∈ chans, Resolves R gates c → Resolves R gates (Chan.gate k) := by
  induction chans, k using buildGates.induct with
  | case1 k => intro h2; simp at h2
  | case2 d k => intro h2; simp at h2
  | case3 c0 c1 k =>
    intro _ hsub c hc hr
    have hg : (k, [c0, c1]) ∈ gates := hsub _ (by simp [buildGates])
    exact Resolves.gate k [c0, c1] c hg hc hr
  | case4 c0 c1 c2 rest k ih =>
    intro _ hsub c hc hr
    have hg : (k, [c0, c1, c2,
        if rest.isEmpty then Chan.gate k else Chan.gate (k + 1)]) ∈ gates := by
      refine hsub _ ?_
      rw [buildGates]
      exact List.mem_cons_self _ _
    rcases List.mem_cons.mp hc with rfl | hc1
    · exact Resolves.gate k _ c hg (by simp) hr
    rcases List.mem_cons.mp hc1 with rfl | hc2
    · exact Resolves.gate k _ c hg (by simp) hr
    rcases List.mem_cons.mp hc2 with rfl | hc3
    · exact Resolves.gate k _ c hg (by simp) hr
    · -- `c` is in `rest`, hence in the recursive call's channel list
      have hne : rest.isEmpty = false := by
        cases rest with
        | nil => simp at hc3
        | cons a as => rfl
      have hlen : 2 ≤ (rest ++ [Chan.gate k]).length := by
        cases rest with
        | nil => simp at hc3
        | cons a as => simp [List.length_append]
      have hsub2 : ∀ p ∈ buildGates (rest ++ [Chan.gate k]) (k + 1), p ∈ gates := by
        intro p hp
        refine hsub p ?_
        rw [buildGates]
        exact List.mem_cons_of_mem _ hp
      have hinner : Resolves R gates (Chan.gate (k + 1)) :=
        ih hlen hsub2 c (List.mem_append_left _ hc3) hr
      refine Resolves.gate k _ (Chan.gate (k + 1)) hg ?_ hinner
      simp [hne]

/-- C2 counterexample: the claim quantifies over every list of input
done-channels, but with exactly one input channel `Or` returns that channel
unchanged, so the derived channel closes only when the input itself closes.
For a single input that has delivered a value but has not closed, the claim
says the derived channel has closed, yet it has not. -/
theorem or_single_counterexample :
    ¬ (orDerivedClosed [⟨True, False⟩] ↔
        ∃ s ∈ [(⟨True, False⟩ : ChanStatus)], s.delivered ∨ s.closed) := by
  intro h
  exact h.mpr ⟨⟨True, False⟩, by simp, Or.inl trivial⟩

/-- C2 amended: for every list of two or more input done-channels, the channel
derived by `Or` closes exactly when some input has closed or delivered a value
— as soon as, and no later than, the earliest such input event, and closure is
the unique event the derived channel ever produces.  (With exactly one input
the derived channel is the input itself and closes only when that input
closes; with zero inputs there is no valid channel.) -/
theorem or_closes_iff_input_resolves (sts : List ChanStatus) (h2 : 2 ≤ sts.length) :
    orDerivedClosed sts ↔ ∃ s ∈ sts, s.delivered ∨ s.closed := by
  obtain ⟨s0, s1, rest, rfl⟩ : ∃ s0 s1 rest, sts = s0 :: s1 :: rest := by
    cases sts with
    | nil => simp at h2
    | cons a tl =>
      cases tl with
      | nil => simp at h2
      | cons b tl2 => exact ⟨a, b, tl2, rfl⟩
  show Resolves _ _ _ ↔ _
  constructor
  · intro h
    obtain ⟨i, hi, -⟩ := resolves_ground _ _ _ h
    obtain ⟨s, hget, hres⟩ := hi
    exact ⟨s, List.get?_mem hget, hres⟩
  · rintro ⟨s, hs, hres⟩
    obtain ⟨i, hget⟩ := List.get?_of_mem hs
    have hilt : i < (s0 :: s1 :: rest).length := by
      by_contra hge
      rw [List.get?_eq_none.mpr (Nat.le_of_not_lt hge)] at hget
      exact Option.noConfusion hget
    refine buildGates_resolves (inputResolves (s0 :: s1 :: rest))
        (orGates (s0 :: s1 :: rest).length)
        ((List.range (s0 :: s1 :: rest).length).map Chan.orig) 0
        (by simp) (fun p hp => hp) (Chan.orig i) ?_ ?_
    · simp only [List.mem_map, List.mem_range]
      exact ⟨i, hilt, rfl⟩
    · exact Resolves.orig i ⟨s, hget, hres⟩

/-- Witness for C2 at a concrete input: two channels, the first closed and the
second still pending, make the derived channel close. -/
theorem or_closes_iff_witness :
    2 ≤ ([⟨False, True⟩, ⟨False, False⟩] : List ChanStatus).length ∧
    (orDerivedClosed [⟨False, True⟩, ⟨False, False⟩] ↔
      ∃ s ∈ [(⟨False, True⟩ : ChanStatus), ⟨False, False⟩], s.delivered ∨ s.closed) :=
  ⟨by decide, or_closes_iff_input_resolves [⟨False, True⟩, ⟨False, False⟩] (by decide)⟩

end Gopatterns
